import Mathlib

/-!
Verification of the cloud-provider inference combiner and of the
`ovs-ofctl dump-flows` output decoder of this repository.

Strings are handled through their underlying character lists (`String.data`),
so that every operation is a structurally recursive, kernel-evaluable
function.  Python exceptions are modelled with `Except`; `None` inputs are
modelled with `Option`.
-/

/-- Character list, the carrier for all text manipulation in this file. -/
abbrev Chars := List Char

deriving instance DecidableEq for Except

/-- `leadsWith pat s` is true when `pat` is an initial segment of `s`. -/
def leadsWith : Chars → Chars → Bool
  | [], _ => true
  | _ :: _, [] => false
  | a :: as, b :: bs => a == b && leadsWith as bs

/-- `containsSub pat s` is true when `pat` occurs somewhere inside `s`
(Python's `pat in s`). -/
def containsSub (pat : Chars) : Chars → Bool
  | [] => pat.isEmpty
  | c :: t => leadsWith pat (c :: t) || containsSub pat t

/-- `strContains s pat` is true when the string `pat` occurs inside the
string `s` (Python's `pat in s`). -/
def strContains (s pat : String) : Bool := containsSub pat.data s.data

/-- `strLeads pat s` is true when the string `s` starts with `pat`
(Python's `s.startswith(pat)`). -/
def strLeads (pat s : String) : Bool := leadsWith pat.data s.data

/-- Split a character list at the first occurrence of `pat`, returning the
part before and the part after; `none` when `pat` does not occur
(the building block for Python's `str.split(sep)`). -/
def splitFirst (pat : Chars) : Chars → Option (Chars × Chars)
  | [] => none
  | c :: t =>
    if leadsWith pat (c :: t) then some ([], (c :: t).drop pat.length)
    else
      match splitFirst pat t with
      | none => none
      | some (a, b) => some (c :: a, b)

namespace CloudProvider

/-- Modelled from the spec: the combiner `insights.combiners.cloud_provider`
is not under `src/` (only its tests are).  The spec's fixed, extensible
provider set, instantiated with the providers exercised by the tests:
`aws`, `google`, `azure`.  The `none` outcome is `Option.none` in
`Verdict.provider`. -/
inductive Provider
  | aws
  | google
  | azure
deriving DecidableEq

/-- Modelled from the spec: the enumerated origin of evidence — package-name
match, BIOS/DMI field match (subdivided into vendor, version, UUID,
asset-tag), repository-name match. -/
inductive SourceCategory
  | biosVendor
  | biosVersion
  | uuid
  | assetTag
  | repo
  | package
deriving DecidableEq

/-- Modelled from the spec: an immutable record
`{provider, source_category, matched_value}`. -/
structure Hit where
  provider : Provider
  category : SourceCategory
  value : String
deriving DecidableEq

/-- The fixed enumeration order of providers, used as the documented
deterministic tie-break within one source category. -/
def providerList : List Provider := [.aws, .google, .azure]

/-- Modelled from the spec: per-provider package-name signature substrings
(the substring identifying Amazon's repository client package, Google's,
and Microsoft's Azure agent package), with the concrete values fixed by the
tests in `src/insights/combiners/tests/test_cloud_provider.py`. -/
def pkgSignature : Provider → String
  | .aws => "rh-amazon-rhui-client"
  | .google => "google-rhui-client"
  | .azure => "WALinuxAgent"

/-- Modelled from the spec: the signature string for a Microsoft Azure
repository mirror, fixed by the tests. -/
def azureRepoSignature : String := "rhui-microsoft-azure"

/-- Modelled from the spec: the brand name matched exactly against the BIOS
vendor string, fixed by the tests. -/
def googleVendorName : String := "Google"

/-- Modelled from the spec: the known Amazon cloud suffix token looked for
inside the BIOS version string, fixed by the tests (`4.2.amazon`). -/
def awsVersionToken : String := "amazon"

/-- Modelled from the spec: the reserved vendor prefix of AWS system UUIDs,
fixed by the tests (`EC2F58AF-...`). -/
def awsUuidStart : String := "EC2"

/-- Modelled from the spec: the known fixed sentinel asset-tag value used by
one provider's virtualization stack (the oVirt/RHEV sentinel classified as
azure), fixed by the tests. -/
def azureAssetTagValue : String := "7783-7084-3265-9085-8269-3286-77"

/-- Modelled from the spec: one typed DMI "handle" record — a record kind
(e.g. `BIOS Information`, `System Information`, `Chassis Information`) and
a mapping of field name → string value. -/
structure DmiHandle where
  kind : String
  fields : List (String × String)
deriving DecidableEq

/-- Field lookup inside one DMI handle. -/
def fieldOf (h : DmiHandle) (name : String) : Option String :=
  (h.fields.find? fun kv => decide (kv.1 = name)).map fun kv => kv.2

/-- Modelled from the spec: only the first record of a given kind is
considered; a missing handle or a missing field silently yields nothing. -/
def handleField (t : List DmiHandle) (kind name : String) : Option String :=
  match t.find? fun h => decide (h.kind = kind) with
  | none => none
  | some h => fieldOf h name

/-- Modelled from the spec: the package matcher — every installed package
name containing a provider's signature substring becomes a separate Hit;
`none` (absent collaborator) contributes zero hits. -/
def packageHits : Option (List String) → List Hit
  | none => []
  | some pkgs =>
      providerList.flatMap fun p =>
        (pkgs.filter fun s => strContains s (pkgSignature p)).map
          fun s => ⟨p, .package, s⟩

/-- Modelled from the spec: BIOS vendor string equal to a known brand name. -/
def vendorHits : Option String → List Hit
  | none => []
  | some v => if v = googleVendorName then [⟨.google, .biosVendor, v⟩] else []

/-- Modelled from the spec: BIOS version string containing a known cloud
suffix token. -/
def versionHits : Option String → List Hit
  | none => []
  | some v => if strContains v awsVersionToken then [⟨.aws, .biosVersion, v⟩] else []

/-- Modelled from the spec: system UUID beginning with a reserved vendor
prefix. -/
def uuidHits : Option String → List Hit
  | none => []
  | some u => if strLeads awsUuidStart u then [⟨.aws, .uuid, u⟩] else []

/-- Modelled from the spec: chassis asset tag equal to the known fixed
sentinel value. -/
def assetHits : Option String → List Hit
  | none => []
  | some t => if t = azureAssetTagValue then [⟨.azure, .assetTag, t⟩] else []

/-- Modelled from the spec: the BIOS/DMI matcher — vendor and version from
the first `BIOS Information` handle, UUID from the first
`System Information` handle, asset tag from the first `Chassis Information`
handle; `none` (absent collaborator) contributes zero hits. -/
def dmiHits : Option (List DmiHandle) → List Hit
  | none => []
  | some t =>
      vendorHits (handleField t "BIOS Information" "Vendor") ++
      versionHits (handleField t "BIOS Information" "Version") ++
      uuidHits (handleField t "System Information" "UUID") ++
      assetHits (handleField t "Chassis Information" "Asset Tag")

/-- Modelled from the spec: the repository matcher — every enabled
repository identifier containing the Azure mirror signature becomes a Hit;
`none` (absent collaborator) contributes zero hits. -/
def repoHits : Option (List String) → List Hit
  | none => []
  | some rs =>
      (rs.filter fun r => strContains r azureRepoSignature).map
        fun r => ⟨.azure, .repo, r⟩

/-- Modelled from the spec: the union of all hits of all three matchers for
one classification run. -/
def allHits (pkgs : Option (List String)) (dmi : Option (List DmiHandle))
    (repos : Option (List String)) : List Hit :=
  packageHits pkgs ++ dmiHits dmi ++ repoHits repos

/-- Modelled from the spec: the fixed precedence order over source
categories — BIOS/DMI vendor/version/UUID signals (rank 0) outrank
asset-tag signals (rank 1), which outrank repository signals (rank 2),
which outrank package-name signals (rank 3).  Lower rank = higher
precedence. -/
def categoryRank : SourceCategory → Nat
  | .biosVendor => 0
  | .biosVersion => 0
  | .uuid => 0
  | .assetTag => 1
  | .repo => 2
  | .package => 3

/-- The best (numerically smallest) category rank present among the hits;
`4` when there are no hits. -/
def minRank : List Hit → Nat
  | [] => 4
  | h :: t => min (categoryRank h.category) (minRank t)

/-- Boolean test: `h` is a hit of provider `p` in a category of rank `r`. -/
def hitFor (p : Provider) (r : Nat) (h : Hit) : Bool :=
  decide (h.provider = p ∧ categoryRank h.category = r)

/-- Modelled from the spec: conflict resolution — the provider associated
with the highest-precedence category that has any hit wins; ties within the
same highest-precedence category go to the first provider in the fixed
enumeration order `providerList`; with no hits at all the outcome is
`none`. -/
def verdictOf (hits : List Hit) : Option Provider :=
  providerList.find? fun p => hits.any (hitFor p (minRank hits))

/-- Modelled from the spec: the EvidenceIndex — per source category, per
provider, the ordered sequence of matched raw values; every hit is
retained. -/
def buildEvidence (hits : List Hit) : SourceCategory → Provider → List String :=
  fun c p =>
    (hits.filter fun h => decide (h.category = c ∧ h.provider = p)).map Hit.value

/-- Modelled from the spec: the Verdict — the single chosen provider (or
`none`) plus the EvidenceIndex used to produce it. -/
structure Verdict where
  provider : Option Provider
  evidence : SourceCategory → Provider → List String

/-- Modelled from the spec: one whole classification run — run the three
matchers on the three collaborator outputs (each possibly absent), merge
the hits, resolve by precedence and expose verdict plus evidence. -/
def classify (pkgs : Option (List String)) (dmi : Option (List DmiHandle))
    (repos : Option (List String)) : Verdict :=
  { provider := verdictOf (allHits pkgs dmi repos)
    evidence := buildEvidence (allHits pkgs dmi repos) }

end CloudProvider

namespace OVSofctlDumpFlows

/-- The double-quote character. -/
def dquote : Char := Char.ofNat 34

/-- Python `str.strip()`: remove leading and trailing whitespace. -/
def trimList (s : Chars) : Chars :=
  ((s.dropWhile Char.isWhitespace).reverse.dropWhile Char.isWhitespace).reverse

/-- Python `str.split(',')`. -/
def splitComma : Chars → List Chars
  | [] => [[]]
  | c :: t =>
    if c = ',' then [] :: splitComma t
    else
      match splitComma t with
      | [] => [[c]]
      | p :: ps => (c :: p) :: ps

/-- Numeric value of a digit string (guarded by `Char.isDigit` at use
sites). -/
def digitsVal (cs : Chars) : Nat :=
  cs.foldl (fun acc c => 10 * acc + (c.toNat - 48)) 0

/-- True when `cs` is one or more decimal digits. -/
def allDigits (cs : Chars) : Bool := !cs.isEmpty && cs.all Char.isDigit

/-- Python `int(s)` on a string: optional surrounding whitespace, an
optional sign and one or more ASCII decimal digits (`none` models the
`ValueError`). -/
def pyIntList (s : Chars) : Option Int :=
  match trimList s with
  | '+' :: rest => if allDigits rest then some (digitsVal rest) else none
  | '-' :: rest => if allDigits rest then some (-(digitsVal rest : Int)) else none
  | t => if allDigits t then some (digitsVal t) else none

/-- The unsigned part of a Python `float` literal: digits with an optional
fractional part, at least one digit overall, valued as the exact rational
of the literal. -/
def pyFloatCore (cs : Chars) : Option Rat :=
  let ip := cs.takeWhile Char.isDigit
  match cs.dropWhile Char.isDigit with
  | [] => if ip.isEmpty then none else some ((digitsVal ip : Nat) : Rat)
  | '.' :: fr =>
      if fr.all Char.isDigit && !(ip.isEmpty && fr.isEmpty) then
        some (mkRat (digitsVal ip * 10 ^ fr.length + digitsVal fr) (10 ^ fr.length))
      else none
  | _ => none

/-- Python `float(s)` on a plain decimal literal, with optional surrounding
whitespace and sign; `none` models the `ValueError` (exponent, `inf` and
`nan` forms are not modelled, as the parser only meets plain durations). -/
def pyFloatList (s : Chars) : Option Rat :=
  match trimList s with
  | '+' :: rest => pyFloatCore rest
  | '-' :: rest => (pyFloatCore rest).map Neg.neg
  | t => pyFloatCore t

/-- The value types a decoded flow field can take: a Python `str`, `int` or
`float` (floats represented as the exact rationals of their decimal
literals). -/
inductive FieldValue
  | str (s : Chars)
  | int (n : Int)
  | float (q : Rat)
deriving DecidableEq

/-- The exceptions `parse_content` can let escape: `SkipException` with its
message, or a `ValueError` from a field decoder. -/
inductive PyExc
  | skip (msg : Chars)
  | valueError
deriving DecidableEq

/-- `OVSofctlDumpFlows._decode_port`: try `int(port)`; on `ValueError`
return the string with every double-quote removed. -/
def decode_port (port : Chars) : FieldValue :=
  match pyIntList port with
  | some n => .int n
  | none => .str (port.filter fun c => c != dquote)

/-- The decoder keyed by `duration`: `float(x.replace('s', ''))` — every
`s` character removed, then parsed as a float. -/
def durationDecode (v : Chars) : Except Unit FieldValue :=
  match pyFloatList (v.filter fun c => c != 's') with
  | some q => .ok (.float q)
  | none => .error ()

/-- The decoder used for the integer-valued fields: `int(x)`. -/
def intDecode (v : Chars) : Except Unit FieldValue :=
  match pyIntList v with
  | some n => .ok (.int n)
  | none => .error ()

/-- The field names of `self._field_decoders`. -/
def decoderKeys : List Chars :=
  ["duration".data, "table".data, "idle_age".data, "importance".data,
   "hard_age".data, "priority".data, "in_port".data, "n_bytes".data,
   "n_packets".data]

/-- `self._field_decoders`: the per-field-name coercion dictionary set up
in `__init__`. -/
def field_decoders (k : Chars) : Option (Chars → Except Unit FieldValue) :=
  if k = "duration".data then some durationDecode
  else if k = "table".data then some intDecode
  else if k = "idle_age".data then some intDecode
  else if k = "importance".data then some intDecode
  else if k = "hard_age".data then some intDecode
  else if k = "priority".data then some intDecode
  else if k = "in_port".data then some (fun v => .ok (decode_port v))
  else if k = "n_bytes".data then some intDecode
  else if k = "n_packets".data then some intDecode
  else none

/-- `OVSofctlDumpFlows._decode_field`: look the field name up in the
decoder dictionary; apply the decoder when present, keep the string value
unchanged otherwise. -/
def decode_field (kv : Chars × Chars) : Except Unit (Chars × FieldValue) :=
  match field_decoders kv.1 with
  | none => .ok (kv.1, .str kv.2)
  | some d => (d kv.2).map fun fv => (kv.1, fv)

/-- A decoded flow record: field name → decoded value, in dict insertion
order. -/
abbrev Flow := List (Chars × FieldValue)

/-- Python dict assignment `m[k] = v` on an insertion-ordered dict:
overwrite in place when the key is present, append otherwise. -/
def assocUpdate {β : Type} (m : List (Chars × β)) (k : Chars) (v : β) :
    List (Chars × β) :=
  if m.any fun kv => kv.1 == k then
    m.map fun kv => if kv.1 == k then (k, v) else kv
  else m ++ [(k, v)]

/-- Modelled from the spec: the helper `insights.parsers.split_kv_pairs`
(its source is not under `src/`); behaviour reconstructed from its call
site and the sample parsed output in the class docstring, at the call's
arguments (`comment_char` `#`, `split_on` `=`): each token is truncated at
the first `#` and stripped; empty tokens and tokens without `=` are
skipped; the rest are split at the first `=` into a stripped key and a
stripped value, entered into a dict (later duplicates overwrite). -/
def split_kv_pairs (tokens : List Chars) : List (Chars × Chars) :=
  tokens.foldl
    (fun m tok =>
      let t := trimList (tok.takeWhile fun c => c != '#')
      if t.isEmpty then m
      else
        match splitFirst "=".data t with
        | none => m
        | some (k, v) => assocUpdate m (trimList k) (trimList v))
    []

/-- `dict(map(self._decode_field, flow_list.items()))`: decode the fields
in order; the first `ValueError` escapes.  The keys of `split_kv_pairs`
output are already unique, so consing rebuilds the dict in insertion
order. -/
def decodeFlow : List (Chars × Chars) → Except Unit Flow
  | [] => .ok []
  | kv :: rest =>
    match decode_field kv with
    | .error e => .error e
    | .ok p => (decodeFlow rest).map fun f => p :: f

/-- `OVSofctlDumpFlows._is_header`: `'NXST_FLOW' in line`. -/
def is_header (line : Chars) : Bool := containsSub "NXST_FLOW".data line

/-- The `actions=` delimiter. -/
def actionsPat : Chars := "actions=".data

/-- `line.split("actions=")` restricted to the shape the parser accepts:
`some (before, after)` when the delimiter occurs exactly once (the split
has exactly two parts), `none` otherwise (delimiter absent, or occurring
again in the remainder). -/
def splitActions (line : Chars) : Option (Chars × Chars) :=
  match splitFirst actionsPat line with
  | none => none
  | some (a, b) => if containsSub actionsPat b then none else some (a, b)

/-- One iteration of the `parse_content` loop on one line: `none` for a
skipped line (header, or no key-value pairs), `some flow` for an appended
flow, or the escaping exception. -/
def procLine (line : Chars) : Except PyExc (Option Flow) :=
  if is_header line then .ok none
  else
    match splitActions line with
    | none => .error (.skip "Invalid Content!".data)
    | some (before, after) =>
      let kvs := split_kv_pairs (splitComma before)
      if kvs.isEmpty then .ok none
      else
        match decodeFlow kvs with
        | .error _ => .error .valueError
        | .ok flow => .ok (some (assocUpdate flow "actions".data (.str after)))

/-- The whole `parse_content` loop over the content lines, collecting
`self._bridges`. -/
def procLines : List Chars → Except PyExc (List Flow)
  | [] => .ok []
  | l :: ls =>
    match procLine l with
    | .error e => .error e
    | .ok none => procLines ls
    | .ok (some f) => (procLines ls).map fun fl => f :: fl

/-- The file-path marker the bridge name is extracted after. -/
def bridgeMarker : Chars := "ovs-ofctl_dump-flows_".data

/-- Python `s.split(pat)[1]`: the text between the first and the second
occurrence of `pat` (up to the end when `pat` occurs once); `none` models
the `IndexError` raised when `pat` does not occur. -/
def pySplitPart1 (pat s : Chars) : Option Chars :=
  match splitFirst pat s with
  | none => none
  | some (_, rest) =>
    match splitFirst pat rest with
    | none => some rest
    | some (a, _) => some a

/-- `OVSofctlDumpFlows.parse_content`: raise `SkipException` on empty
content; extract the bridge name from the file path, raising
`SkipException` when the marker is absent (the bare `except` around the
indexing); run the loop; raise `SkipException` when no flow was collected;
otherwise the parsed flows (`self._bridges`). -/
def parse_content (filePath : Chars) (content : List Chars) :
    Except PyExc (List Flow) :=
  if content.isEmpty then .error (.skip "Empty Content!".data)
  else
    match pySplitPart1 bridgeMarker filePath with
    | none => .error (.skip "Invalid Path!".data)
    | some _bridge =>
      match procLines content with
      | .error e => .error e
      | .ok flows =>
        if flows.isEmpty then .error (.skip "Invalid Content!".data)
        else .ok flows

/-- The flow one line contributes when no exception escapes on it. -/
def flowOf (l : Chars) : Option Flow :=
  match procLine l with
  | .ok (some f) => some f
  | .ok none => none
  | .error _ => none

/-- The flows the loop collects when no exception escapes. -/
def producedFlows (content : List Chars) : List Flow :=
  content.filterMap flowOf

end OVSofctlDumpFlows

namespace CloudProvider

lemma minRank_le {hits : List Hit} {h : Hit} (hm : h ∈ hits) :
    minRank hits ≤ categoryRank h.category := by
  induction hits with
  | nil => cases hm
  | cons a t ih =>
    rcases List.mem_cons.mp hm with rfl | hm'
    · exact min_le_left _ _
    · exact le_trans (min_le_right _ _) (ih hm')

lemma categoryRank_le (c : SourceCategory) : categoryRank c ≤ 3 := by
  cases c <;> simp [categoryRank]

lemma exists_minRank {hits : List Hit} (hne : hits ≠ []) :
    ∃ h ∈ hits, categoryRank h.category = minRank hits := by
  induction hits with
  | nil => exact absurd rfl hne
  | cons a t ih =>
    cases t with
    | nil =>
      refine ⟨a, List.mem_cons_self _ _, ?_⟩
      simp only [minRank]
      exact (min_eq_left (le_trans (categoryRank_le _) (by norm_num))).symm
    | cons b t' =>
      rcases ih (by simp) with ⟨h, hm, hr⟩
      rcases le_total (categoryRank a.category) (minRank (b :: t')) with hle | hle
      · exact ⟨a, List.mem_cons_self _ _, (min_eq_left hle).symm⟩
      · exact ⟨h, List.mem_cons_of_mem _ hm, by rw [minRank, min_eq_right hle, hr]⟩

lemma verdict_unique {hits : List Hit} {p : Provider}
    (hp : ∃ h ∈ hits, h.provider = p ∧ categoryRank h.category = minRank hits)
    (huniq : ∀ h ∈ hits, categoryRank h.category = minRank hits → h.provider = p) :
    verdictOf hits = some p := by
  have hpred : ∀ q : Provider,
      (hits.any (hitFor q (minRank hits)) = true) ↔ q = p := by
    intro q
    constructor
    · intro hq
      rcases List.any_eq_true.mp hq with ⟨h, hmem, hf⟩
      rcases of_decide_eq_true hf with ⟨h1, h2⟩
      rw [← h1]
      exact huniq h hmem h2
    · rintro rfl
      rcases hp with ⟨h, hmem, h1, h2⟩
      exact List.any_eq_true.mpr ⟨h, hmem, decide_eq_true ⟨h1, h2⟩⟩
  have hfalse : ∀ q : Provider, q ≠ p →
      hits.any (hitFor q (minRank hits)) = false := by
    intro q hqp
    cases hb : hits.any (hitFor q (minRank hits)) with
    | false => rfl
    | true => exact absurd ((hpred q).mp hb) hqp
  cases p with
  | aws =>
    simp [verdictOf, providerList, List.find?, (hpred .aws).mpr rfl]
  | google =>
    simp [verdictOf, providerList, List.find?, (hpred .google).mpr rfl,
      hfalse .aws (by simp)]
  | azure =>
    simp [verdictOf, providerList, List.find?, (hpred .azure).mpr rfl,
      hfalse .aws (by simp), hfalse .google (by simp)]

lemma mem_packageHits {x : Option (List String)} {h : Hit}
    (hm : h ∈ packageHits x) : h.category = .package := by
  cases x with
  | none => cases hm
  | some pkgs =>
    simp only [packageHits, List.mem_flatMap, List.mem_map, List.mem_filter] at hm
    rcases hm with ⟨p, _, s, _, rfl⟩
    rfl

lemma mem_vendorHits {x : Option String} {h : Hit} (hm : h ∈ vendorHits x) :
    h.category = .biosVendor ∧ h.provider = .google := by
  cases x with
  | none => cases hm
  | some v =>
    simp only [vendorHits] at hm
    split at hm
    · rcases List.mem_singleton.mp hm with rfl; exact ⟨rfl, rfl⟩
    · cases hm

lemma mem_versionHits {x : Option String} {h : Hit} (hm : h ∈ versionHits x) :
    h.category = .biosVersion ∧ h.provider = .aws := by
  cases x with
  | none => cases hm
  | some v =>
    simp only [versionHits] at hm
    split at hm
    · rcases List.mem_singleton.mp hm with rfl; exact ⟨rfl, rfl⟩
    · cases hm

lemma mem_uuidHits {x : Option String} {h : Hit} (hm : h ∈ uuidHits x) :
    h.category = .uuid ∧ h.provider = .aws := by
  cases x with
  | none => cases hm
  | some u =>
    simp only [uuidHits] at hm
    split at hm
    · rcases List.mem_singleton.mp hm with rfl; exact ⟨rfl, rfl⟩
    · cases hm

lemma mem_assetHits {x : Option String} {h : Hit} (hm : h ∈ assetHits x) :
    h.category = .assetTag ∧ h.provider = .azure := by
  cases x with
  | none => cases hm
  | some t =>
    simp only [assetHits] at hm
    split at hm
    · rcases List.mem_singleton.mp hm with rfl; exact ⟨rfl, rfl⟩
    · cases hm

lemma mem_repoHits {x : Option (List String)} {h : Hit} (hm : h ∈ repoHits x) :
    h.category = .repo ∧ h.provider = .azure := by
  cases x with
  | none => cases hm
  | some rs =>
    simp only [repoHits, List.mem_map, List.mem_filter] at hm
    rcases hm with ⟨r, _, rfl⟩
    exact ⟨rfl, rfl⟩

lemma mem_dmiHits {x : Option (List DmiHandle)} {h : Hit} (hm : h ∈ dmiHits x) :
    (h.category = .biosVendor ∧ h.provider = .google) ∨
    (h.category = .biosVersion ∧ h.provider = .aws) ∨
    (h.category = .uuid ∧ h.provider = .aws) ∨
    (h.category = .assetTag ∧ h.provider = .azure) := by
  cases x with
  | none => cases hm
  | some t =>
    simp only [dmiHits, List.mem_append] at hm
    rcases hm with ((hv | hv) | hv) | hv
    · exact Or.inl (mem_vendorHits hv)
    · exact Or.inr (Or.inl (mem_versionHits hv))
    · exact Or.inr (Or.inr (Or.inl (mem_uuidHits hv)))
    · exact Or.inr (Or.inr (Or.inr (mem_assetHits hv)))

lemma minRank_perm {hits₁ hits₂ : List Hit} (hperm : hits₁.Perm hits₂) :
    minRank hits₁ = minRank hits₂ := by
  rcases eq_or_ne hits₁ [] with rfl | hne₁
  · rw [hperm.symm.eq_nil]
  · have hne₂ : hits₂ ≠ [] := by
      intro hc
      rw [hc] at hperm
      exact hne₁ hperm.eq_nil
    apply le_antisymm
    · rcases exists_minRank hne₂ with ⟨h₂, hm₂, hr₂⟩
      rw [← hr₂]
      exact minRank_le (hperm.mem_iff.mpr hm₂)
    · rcases exists_minRank hne₁ with ⟨h₁, hm₁, hr₁⟩
      rw [← hr₁]
      exact minRank_le (hperm.mem_iff.mp hm₁)

lemma any_perm {l₁ l₂ : List Hit} (hperm : l₁.Perm l₂) (f : Hit → Bool) :
    l₁.any f = l₂.any f := by
  cases hb : l₂.any f with
  | true =>
    rcases List.any_eq_true.mp hb with ⟨h, hm, hf⟩
    exact List.any_eq_true.mpr ⟨h, hperm.mem_iff.mpr hm, hf⟩
  | false =>
    cases ha : l₁.any f with
    | false => rfl
    | true =>
      rcases List.any_eq_true.mp ha with ⟨h, hm, hf⟩
      have := List.any_eq_true.mpr ⟨h, hperm.mem_iff.mp hm, hf⟩
      rw [hb] at this
      cases this

lemma filterAsset_nil (l : List Hit)
    (hl : ∀ h ∈ l, h.category ≠ SourceCategory.assetTag) :
    l.filter
      (fun h => decide (h.category = SourceCategory.assetTag ∧
        h.provider = Provider.azure)) = [] := by
  induction l with
  | nil => rfl
  | cons a t ih =>
    have ha : ¬(a.category = SourceCategory.assetTag ∧
        a.provider = Provider.azure) := by
      intro hc
      exact hl a (List.mem_cons_self _ _) hc.1
    simp only [List.filter_cons, decide_eq_true_eq]
    rw [if_neg ha]
    exact ih fun h hm => hl h (List.mem_cons_of_mem _ hm)

lemma assetTag_provider {pkgs : Option (List String)}
    {dmi : Option (List DmiHandle)} {repos : Option (List String)} {h : Hit}
    (hm : h ∈ allHits pkgs dmi repos) (hc : h.category = .assetTag) :
    h.provider = .azure := by
  simp only [allHits, List.mem_append] at hm
  rcases hm with (hm | hm) | hm
  · rw [mem_packageHits hm] at hc; cases hc
  · rcases mem_dmiHits hm with ⟨h1, _⟩ | ⟨h1, _⟩ | ⟨h1, _⟩ | ⟨_, h2⟩
    · rw [h1] at hc; cases hc
    · rw [h1] at hc; cases hc
    · rw [h1] at hc; cases hc
    · exact h2
  · exact (mem_repoHits hm).2

/-- C1: whenever one provider `p` has a hit in a source category that
strictly outranks (per `categoryRank`) every category in which any other
provider has a hit, the fixed precedence order makes `p` the verdict; in
particular an AWS BIOS-version hit beats an Azure repository hit. -/
theorem precedence_order_resolves_conflicts
    (pkgs : Option (List String)) (dmi : Option (List DmiHandle))
    (repos : Option (List String)) (p : Provider) (r : Nat)
    (hp : ∃ h ∈ allHits pkgs dmi repos,
      h.provider = p ∧ categoryRank h.category = r)
    (hothers : ∀ h ∈ allHits pkgs dmi repos,
      h.provider ≠ p → r < categoryRank h.category) :
    (classify pkgs dmi repos).provider = some p := by
  rcases hp with ⟨h, hm, hprov, hrank⟩
  have hne : allHits pkgs dmi repos ≠ [] := List.ne_nil_of_mem hm
  have hmle : minRank (allHits pkgs dmi repos) ≤ r := by
    rw [← hrank]
    exact minRank_le hm
  rcases exists_minRank hne with ⟨h₀, hm₀, hr₀⟩
  have hup : ∀ h' ∈ allHits pkgs dmi repos,
      categoryRank h'.category = minRank (allHits pkgs dmi repos) →
      h'.provider = p := by
    intro h' hm' hr'
    by_contra hc
    exact absurd (lt_of_lt_of_le (hothers h' hm' hc) (hr' ▸ hmle))
      (lt_irrefl _)
  exact verdict_unique ⟨h₀, hm₀, hup h₀ hm₀ hr₀, hr₀⟩ hup

/-- Witness for C1: the scenario of `test__bios_version_aws` — no package
hit, an AWS BIOS-version hit `4.2.amazon` and an Azure repository hit
present simultaneously; the verdict is aws. -/
theorem precedence_order_resolves_conflicts_witness :
    (classify (some ["gnome-terminal-3.28.2-2.fc28.x86_64"])
      (some [⟨"BIOS Information", [("Vendor", "Xen"), ("Version", "4.2.amazon")]⟩])
      (some ["rhui-microsoft-azure-rhel7-2.2-74"])).provider =
      some Provider.aws :=
  precedence_order_resolves_conflicts _ _ _ Provider.aws 0
    (by decide) (by decide)

/-- C2: an input with zero hits across all three source categories yields
verdict `none`, and every category's evidence mapping (the categories all
being structurally present in the total function `Verdict.evidence`) is
empty for every provider. -/
theorem zero_hits_verdict_none
    (pkgs : Option (List String)) (dmi : Option (List DmiHandle))
    (repos : Option (List String)) (hz : allHits pkgs dmi repos = []) :
    (classify pkgs dmi repos).provider = none ∧
    ∀ c : SourceCategory, ∀ p : Provider,
      (classify pkgs dmi repos).evidence c p = [] := by
  constructor
  · show verdictOf (allHits pkgs dmi repos) = none
    rw [hz]
    rfl
  · intro c p
    show buildEvidence (allHits pkgs dmi repos) c p = []
    rw [hz]
    rfl

/-- Witness for C2: non-matching package, DMI and repository inputs
produce zero hits, verdict `none` and empty evidence. -/
theorem zero_hits_verdict_none_witness :
    (classify (some ["gnome-terminal-3.28.2-2.fc28.x86_64"])
      (some [⟨"BIOS Information", [("Vendor", "HP"), ("Version", "P70")]⟩])
      (some ["rhel-6-server-rpms"])).provider = none ∧
    (classify (some ["gnome-terminal-3.28.2-2.fc28.x86_64"])
      (some [⟨"BIOS Information", [("Vendor", "HP"), ("Version", "P70")]⟩])
      (some ["rhel-6-server-rpms"])).evidence SourceCategory.package
        Provider.aws = [] :=
  ⟨(zero_hits_verdict_none _ _ _ (by decide)).1,
   (zero_hits_verdict_none _ _ _ (by decide)).2 SourceCategory.package
     Provider.aws⟩

/-- C3: when all hits of a run name exactly one provider, that provider is
the verdict, regardless of the source category that produced the hits. -/
theorem single_provider_wins
    (pkgs : Option (List String)) (dmi : Option (List DmiHandle))
    (repos : Option (List String)) (p : Provider)
    (hne : allHits pkgs dmi repos ≠ [])
    (hall : ∀ h ∈ allHits pkgs dmi repos, h.provider = p) :
    (classify pkgs dmi repos).provider = some p := by
  rcases exists_minRank hne with ⟨h₀, hm₀, hr₀⟩
  exact verdict_unique ⟨h₀, hm₀, hall h₀ hm₀, hr₀⟩
    fun h hm _ => hall h hm

/-- Witness for C3: the scenario of `test_rpm_aws` — a single AWS package
hit and nothing else makes aws the verdict. -/
theorem single_provider_wins_witness :
    (classify (some ["gnome-terminal-3.28.2-2.fc28.x86_64",
      "rh-amazon-rhui-client-2.2.124-1.el7"]) none
      (some ["rhel-6-server-rpms"])).provider = some Provider.aws :=
  single_provider_wins _ _ _ Provider.aws (by decide) (by decide)

/-- C4: a DMI chassis asset tag exactly equal to the known sentinel value
makes azure the verdict — the asset-tag precedence case, in which the
BIOS/DMI vendor/version/UUID fields contribute no hit (every hit has
positive rank), while package hits for other providers may be present —
and the asset-tag evidence for azure is exactly that sentinel. -/
theorem asset_tag_sentinel_azure
    (pkgs : Option (List String)) (repos : Option (List String))
    (t : List DmiHandle)
    (hasset : handleField t "Chassis Information" "Asset Tag" =
      some azureAssetTagValue)
    (h0 : ∀ h ∈ allHits pkgs (some t) repos, 0 < categoryRank h.category) :
    (classify pkgs (some t) repos).provider = some Provider.azure ∧
    (classify pkgs (some t) repos).evidence SourceCategory.assetTag
      Provider.azure = [azureAssetTagValue] := by
  have hhit : (⟨Provider.azure, SourceCategory.assetTag,
      azureAssetTagValue⟩ : Hit) ∈ allHits pkgs (some t) repos := by
    simp [allHits, dmiHits, hasset, assetHits]
  have hne : allHits pkgs (some t) repos ≠ [] := List.ne_nil_of_mem hhit
  have hmle : minRank (allHits pkgs (some t) repos) ≤ 1 := by
    have := minRank_le hhit
    simpa [categoryRank] using this
  have hmge : 1 ≤ minRank (allHits pkgs (some t) repos) := by
    rcases exists_minRank hne with ⟨h₀, hm₀, hr₀⟩
    rw [← hr₀]
    exact h0 h₀ hm₀
  have hmr : minRank (allHits pkgs (some t) repos) = 1 :=
    le_antisymm hmle hmge
  have hcat1 : ∀ h ∈ allHits pkgs (some t) repos,
      categoryRank h.category = minRank (allHits pkgs (some t) repos) →
      h.provider = Provider.azure := by
    intro h hm hr
    rw [hmr] at hr
    have hcat : h.category = SourceCategory.assetTag := by
      cases hc : h.category <;> rw [hc] at hr <;>
        first | rfl | (exfalso; simp [categoryRank] at hr)
    exact assetTag_provider hm hcat
  constructor
  · exact verdict_unique ⟨_, hhit, rfl, by rw [hmr]; rfl⟩ hcat1
  · show buildEvidence (allHits pkgs (some t) repos)
      SourceCategory.assetTag Provider.azure = [azureAssetTagValue]
    rw [show allHits pkgs (some t) repos = packageHits pkgs ++
      (vendorHits (handleField t "BIOS Information" "Vendor") ++
       versionHits (handleField t "BIOS Information" "Version") ++
       uuidHits (handleField t "System Information" "UUID") ++
       assetHits (some azureAssetTagValue)) ++ repoHits repos from by
        rw [allHits, dmiHits, hasset]]
    simp only [buildEvidence, List.filter_append, List.map_append]
    rw [filterAsset_nil (packageHits pkgs)
        fun h hm => by rw [mem_packageHits hm]; simp,
      filterAsset_nil (vendorHits (handleField t "BIOS Information" "Vendor"))
        fun h hm => by rw [(mem_vendorHits hm).1]; simp,
      filterAsset_nil (versionHits (handleField t "BIOS Information" "Version"))
        fun h hm => by rw [(mem_versionHits hm).1]; simp,
      filterAsset_nil (uuidHits (handleField t "System Information" "UUID"))
        fun h hm => by rw [(mem_uuidHits hm).1]; simp,
      filterAsset_nil (repoHits repos)
        fun h hm => by rw [(mem_repoHits hm).1]; simp]
    simp [assetHits]

/-- Witness for C4: the scenario of `test__asset_tag_azure`, strengthened
with a package that weakly matches aws — the sentinel asset tag still makes
azure the verdict and is the azure asset-tag evidence. -/
theorem asset_tag_sentinel_azure_witness :
    (classify (some ["rh-amazon-rhui-client-2.2.124-1.el7"])
      (some [⟨"BIOS Information",
        [("Vendor", "SeaBIOS"), ("Version", "1.11.0-2.el7")]⟩,
        ⟨"System Information",
          [("UUID", "a35ae32b-ed0a-49a4-9dbb-eecf21f88aab")]⟩,
        ⟨"Chassis Information",
          [("Asset Tag", "7783-7084-3265-9085-8269-3286-77")]⟩])
      (some ["rhel-6-server-rpms"])).provider = some Provider.azure ∧
    (classify (some ["rh-amazon-rhui-client-2.2.124-1.el7"])
      (some [⟨"BIOS Information",
        [("Vendor", "SeaBIOS"), ("Version", "1.11.0-2.el7")]⟩,
        ⟨"System Information",
          [("UUID", "a35ae32b-ed0a-49a4-9dbb-eecf21f88aab")]⟩,
        ⟨"Chassis Information",
          [("Asset Tag", "7783-7084-3265-9085-8269-3286-77")]⟩])
      (some ["rhel-6-server-rpms"])).evidence SourceCategory.assetTag
      Provider.azure = ["7783-7084-3265-9085-8269-3286-77"] :=
  asset_tag_sentinel_azure _ _ _ (by decide) (by decide)

/-- C5: an absent (`None`) collaborator contributes zero hits for its
category, so classification stays defined (it is a total function here by
construction), only the available evidence shrinks, and with all three
collaborators absent the verdict degrades to `none` with empty evidence. -/
theorem absent_collaborators_never_raise :
    packageHits none = [] ∧ dmiHits none = [] ∧ repoHits none = [] ∧
    (∀ pkgs dmi repos, (allHits none dmi repos).Sublist
      (allHits pkgs dmi repos)) ∧
    (∀ pkgs dmi repos, (allHits pkgs none repos).Sublist
      (allHits pkgs dmi repos)) ∧
    (∀ pkgs dmi repos, (allHits pkgs dmi none).Sublist
      (allHits pkgs dmi repos)) ∧
    (classify none none none).provider = none ∧
    ∀ c p, (classify none none none).evidence c p = [] := by
  refine ⟨rfl, rfl, rfl, ?_, ?_, ?_, rfl, fun c p => rfl⟩
  · intro pkgs dmi repos
    exact List.Sublist.append
      (List.Sublist.append (List.nil_sublist _) (List.Sublist.refl _))
      (List.Sublist.refl _)
  · intro pkgs dmi repos
    exact List.Sublist.append
      (List.Sublist.append (List.Sublist.refl _) (List.nil_sublist _))
      (List.Sublist.refl _)
  · intro pkgs dmi repos
    exact List.Sublist.append (List.Sublist.refl _) (List.nil_sublist _)

/-- C6: classification is a pure, deterministic function of the three
collaborator outputs — two invocations on the same triple give the same
`Verdict` — and the chosen provider does not depend on the order in which
the matchers contributed their hits (the verdict is invariant under
permutation of the hit list). -/
theorem classification_deterministic :
    (∀ pkgs dmi repos, classify pkgs dmi repos = classify pkgs dmi repos) ∧
    ∀ hits₁ hits₂ : List Hit, hits₁.Perm hits₂ →
      verdictOf hits₁ = verdictOf hits₂ := by
  refine ⟨fun pkgs dmi repos => rfl, fun hits₁ hits₂ hperm => ?_⟩
  have hmr := minRank_perm hperm
  show providerList.find? (fun p => hits₁.any (hitFor p (minRank hits₁))) =
    providerList.find? (fun p => hits₂.any (hitFor p (minRank hits₂)))
  rw [show (fun p => hits₁.any (hitFor p (minRank hits₁))) =
    (fun p => hits₂.any (hitFor p (minRank hits₂))) from
    funext fun p => by rw [hmr, any_perm hperm]]

/-- Witness for C6: exchanging the order of an AWS BIOS-version hit and an
Azure repository hit leaves the verdict unchanged. -/
theorem classification_deterministic_witness :
    verdictOf [⟨Provider.aws, SourceCategory.biosVersion, "4.2.amazon"⟩,
      ⟨Provider.azure, SourceCategory.repo, "rhui-microsoft-azure-rhel7-2.2-74"⟩] =
    verdictOf [⟨Provider.azure, SourceCategory.repo, "rhui-microsoft-azure-rhel7-2.2-74"⟩,
      ⟨Provider.aws, SourceCategory.biosVersion, "4.2.amazon"⟩] :=
  classification_deterministic.2 _ _ (List.Perm.swap _ _ _)

/-- C7: the EvidenceIndex of a run retains every hit of every matcher in
every category — each hit's matched value appears in the evidence list of
its category and provider, whether or not that provider wins. -/
theorem evidence_retains_all_hits
    (pkgs : Option (List String)) (dmi : Option (List DmiHandle))
    (repos : Option (List String)) (h : Hit)
    (hm : h ∈ allHits pkgs dmi repos) :
    h.value ∈ (classify pkgs dmi repos).evidence h.category h.provider :=
  List.mem_map.mpr ⟨h, List.mem_filter.mpr ⟨hm, decide_eq_true ⟨rfl, rfl⟩⟩, rfl⟩

/-- Witness for C7: in the conflict scenario where aws wins, the losing
Azure repository hit is still present in the evidence. -/
theorem evidence_retains_all_hits_witness :
    ("rhui-microsoft-azure-rhel7-2.2-74" : String) ∈
      (classify (some ["gnome-terminal-3.28.2-2.fc28.x86_64"])
        (some [⟨"BIOS Information",
          [("Vendor", "Xen"), ("Version", "4.2.amazon")]⟩])
        (some ["rhui-microsoft-azure-rhel7-2.2-74"])).evidence
        SourceCategory.repo Provider.azure :=
  evidence_retains_all_hits _ _ _
    ⟨Provider.azure, SourceCategory.repo, "rhui-microsoft-azure-rhel7-2.2-74"⟩
    (by decide)

end CloudProvider

namespace OVSofctlDumpFlows

lemma procLine_skip (l m : Chars) :
    procLine l = .error (.skip m) ↔
    is_header l = false ∧ splitActions l = none ∧
      m = "Invalid Content!".data := by
  cases hh : is_header l with
  | true => simp [procLine, hh]
  | false =>
    cases hs : splitActions l with
    | none => simp [procLine, hh, hs, eq_comm]
    | some ab =>
      obtain ⟨a, b⟩ := ab
      cases hk : (split_kv_pairs (splitComma a)).isEmpty with
      | true => simp [procLine, hh, hs, hk]
      | false =>
        cases hd : decodeFlow (split_kv_pairs (splitComma a)) with
        | error e => simp [procLine, hh, hs, hk, hd]
        | ok flow => simp [procLine, hh, hs, hk, hd]

lemma procLines_error {c : List Chars} {e : PyExc}
    (h : procLines c = .error e) : ∃ l ∈ c, procLine l = .error e := by
  induction c with
  | nil => cases h
  | cons a t ih =>
    cases hp : procLine a with
    | error e' =>
      rw [procLines, hp] at h
      cases h
      exact ⟨a, List.mem_cons_self _ _, hp⟩
    | ok of =>
      cases of with
      | none =>
        rw [procLines, hp] at h
        rcases ih h with ⟨l, hm, hl⟩
        exact ⟨l, List.mem_cons_of_mem _ hm, hl⟩
      | some f =>
        rw [procLines, hp] at h
        cases hrec : procLines t with
        | error e' =>
          rw [hrec] at h
          cases h
          rcases ih hrec with ⟨l, hm, hl⟩
          exact ⟨l, List.mem_cons_of_mem _ hm, hl⟩
        | ok fl =>
          rw [hrec] at h
          cases h

lemma procLines_noerr {c : List Chars}
    (h : ∀ l ∈ c, ∀ e, procLine l ≠ .error e) :
    procLines c = .ok (producedFlows c) := by
  induction c with
  | nil => rfl
  | cons a t ih =>
    have hrec := ih fun l hm => h l (List.mem_cons_of_mem _ hm)
    cases hp : procLine a with
    | error e => exact absurd hp (h a (List.mem_cons_self _ _) e)
    | ok of =>
      cases of with
      | none =>
        have hf : flowOf a = none := by simp [flowOf, hp]
        simp only [procLines, hp, hrec, producedFlows, List.filterMap_cons, hf]
      | some f =>
        have hf : flowOf a = some f := by simp [flowOf, hp]
        simp only [procLines, hp, hrec, producedFlows, List.filterMap_cons, hf,
          Except.map]

lemma procLines_skip_of_mem {c : List Chars}
    (hve : ∀ l ∈ c, procLine l ≠ .error .valueError)
    (hl : ∃ l ∈ c, procLine l = .error (.skip "Invalid Content!".data)) :
    procLines c = .error (.skip "Invalid Content!".data) := by
  induction c with
  | nil => rcases hl with ⟨l, hm, _⟩; cases hm
  | cons a t ih =>
    cases hp : procLine a with
    | error e =>
      cases e with
      | valueError => exact absurd hp (hve a (List.mem_cons_self _ _))
      | skip m =>
        rcases (procLine_skip a m).mp hp with ⟨_, _, rfl⟩
        rw [procLines, hp]
    | ok of =>
      have hlt : ∃ l ∈ t, procLine l = .error (.skip "Invalid Content!".data) := by
        rcases hl with ⟨l, hm, he⟩
        rcases List.mem_cons.mp hm with rfl | hm'
        · rw [hp] at he; cases he
        · exact ⟨l, hm', he⟩
      have hrec := ih (fun l hm => hve l (List.mem_cons_of_mem _ hm)) hlt
      cases of with
      | none => rw [procLines, hp, hrec]
      | some f => rw [procLines, hp, hrec]; rfl

/-- C8 (counterexample): the claim's enumeration of the `SkipException`
conditions is incomplete.  A structurally valid content with a file path
lacking the bridge marker still raises `SkipException` (`Invalid Path!`),
and a line whose `table` value is not numeric makes `parse_content` raise
`ValueError` — neither `SkipException` nor a normal return. -/
theorem parse_content_skip_cex :
    parse_content "foo".data ["a=1 actions=drop".data] =
      .error (.skip "Invalid Path!".data) ∧
    ["a=1 actions=drop".data] ≠ ([] : List Chars) ∧
    is_header "a=1 actions=drop".data = false ∧
    (splitActions "a=1 actions=drop".data).isSome = true ∧
    producedFlows ["a=1 actions=drop".data] ≠ [] ∧
    parse_content "insights_commands/ovs-ofctl_dump-flows_br0".data
      ["table=x actions=drop".data] = .error .valueError := by
  decide

/-- C8 (amended): provided no field decoder raises `ValueError` on any
line, `parse_content` raises `SkipException` exactly when the content is
empty, or the file path lacks the `ovs-ofctl_dump-flows_` marker, or some
non-header line does not split on `actions=` into exactly two parts, or no
flow record is produced; in the remaining case it returns normally with
the parsed flows. -/
theorem parse_content_skip_iff (fp : Chars) (content : List Chars)
    (hve : ∀ l ∈ content, procLine l ≠ .error .valueError) :
    ((∃ m, parse_content fp content = .error (.skip m)) ↔
      (content = [] ∨ pySplitPart1 bridgeMarker fp = none ∨
       (∃ l ∈ content, is_header l = false ∧ splitActions l = none) ∨
       producedFlows content = [])) ∧
    (¬(content = [] ∨ pySplitPart1 bridgeMarker fp = none ∨
       (∃ l ∈ content, is_header l = false ∧ splitActions l = none) ∨
       producedFlows content = []) →
      parse_content fp content = .ok (producedFlows content)) := by
  by_cases hc : content = []
  · subst hc
    exact ⟨⟨fun _ => Or.inl rfl, fun _ => ⟨"Empty Content!".data, rfl⟩⟩,
      fun hn => absurd (Or.inl rfl) hn⟩
  · have hcne : content.isEmpty = false := by
      cases content with
      | nil => exact absurd rfl hc
      | cons a t => rfl
    cases hpm : pySplitPart1 bridgeMarker fp with
    | none =>
      refine ⟨⟨fun _ => Or.inr (Or.inl rfl), fun _ => ?_⟩,
        fun hn => absurd (Or.inr (Or.inl rfl)) hn⟩
      refine ⟨"Invalid Path!".data, ?_⟩
      simp [parse_content, hcne, hpm]
    | some br =>
      by_cases hbad : ∃ l ∈ content, is_header l = false ∧ splitActions l = none
      · have hpl : procLines content = .error (.skip "Invalid Content!".data) := by
          apply procLines_skip_of_mem hve
          rcases hbad with ⟨l, hm, h1, h2⟩
          exact ⟨l, hm, (procLine_skip l _).mpr ⟨h1, h2, rfl⟩⟩
        refine ⟨⟨fun _ => Or.inr (Or.inr (Or.inl hbad)), fun _ => ?_⟩,
          fun hn => absurd (Or.inr (Or.inr (Or.inl hbad))) hn⟩
        refine ⟨"Invalid Content!".data, ?_⟩
        simp [parse_content, hcne, hpm, hpl]
      · have hnoerr : ∀ l ∈ content, ∀ e, procLine l ≠ .error e := by
          intro l hm e hcontra
          cases e with
          | valueError => exact hve l hm hcontra
          | skip m =>
            rcases (procLine_skip l m).mp hcontra with ⟨h1, h2, _⟩
            exact hbad ⟨l, hm, h1, h2⟩
        have hok := procLines_noerr hnoerr
        by_cases hpf : producedFlows content = []
        · refine ⟨⟨fun _ => Or.inr (Or.inr (Or.inr hpf)), fun _ => ?_⟩,
            fun hn => absurd (Or.inr (Or.inr (Or.inr hpf))) hn⟩
          refine ⟨"Invalid Content!".data, ?_⟩
          simp [parse_content, hcne, hpm, hok, hpf]
        · have hpfe : (producedFlows content).isEmpty = false := by
            cases hpc : producedFlows content with
            | nil => exact absurd hpc hpf
            | cons a t => rfl
          constructor
          · constructor
            · rintro ⟨m, hm⟩
              simp [parse_content, hcne, hpm, hok, hpfe] at hm
            · intro hr
              rcases hr with h | h | h | h
              · exact absurd h hc
              · simp at h
              · exact absurd h hbad
              · exact absurd h hpf
          · intro _
            simp [parse_content, hcne, hpm, hok, hpfe]

/-- Witness for C8 (amended): a well-formed path and line parse to the
produced flows. -/
theorem parse_content_skip_iff_witness :
    parse_content "insights_commands/ovs-ofctl_dump-flows_br0".data
      ["a=1 actions=drop".data] =
      .ok (producedFlows ["a=1 actions=drop".data]) :=
  (parse_content_skip_iff "insights_commands/ovs-ofctl_dump-flows_br0".data
    ["a=1 actions=drop".data] (by decide)).2 (by decide)

/-- C9: field values are coerced per field name by the fixed decoder
dictionary — `duration` becomes a float after every `s` character is
removed, the seven integer fields become ints, `in_port` goes through
`decode_port`, and a field name outside the dictionary keeps its string
value unchanged. -/
theorem field_decoding_per_name :
    (∀ v : Chars, ∀ q : Rat,
      pyFloatList (v.filter fun c => c != 's') = some q →
      decode_field ("duration".data, v) =
        .ok ("duration".data, FieldValue.float q)) ∧
    (∀ v : Chars, ∀ n : Int, pyIntList v = some n →
      decode_field ("table".data, v) = .ok ("table".data, FieldValue.int n) ∧
      decode_field ("idle_age".data, v) =
        .ok ("idle_age".data, FieldValue.int n) ∧
      decode_field ("importance".data, v) =
        .ok ("importance".data, FieldValue.int n) ∧
      decode_field ("hard_age".data, v) =
        .ok ("hard_age".data, FieldValue.int n) ∧
      decode_field ("priority".data, v) =
        .ok ("priority".data, FieldValue.int n) ∧
      decode_field ("n_bytes".data, v) =
        .ok ("n_bytes".data, FieldValue.int n) ∧
      decode_field ("n_packets".data, v) =
        .ok ("n_packets".data, FieldValue.int n)) ∧
    (∀ v : Chars, decode_field ("in_port".data, v) =
      .ok ("in_port".data, decode_port v)) ∧
    (∀ k v : Chars, k ∉ decoderKeys → decode_field (k, v) = .ok (k, .str v)) := by
  refine ⟨?_, ?_, ?_, ?_⟩
  · intro v q hq
    have hf : field_decoders "duration".data = some durationDecode := rfl
    simp [decode_field, hf, durationDecode, hq, Except.map]
  · intro v n hn
    have h1 : field_decoders "table".data = some intDecode := rfl
    have h2 : field_decoders "idle_age".data = some intDecode := rfl
    have h3 : field_decoders "importance".data = some intDecode := rfl
    have h4 : field_decoders "hard_age".data = some intDecode := rfl
    have h5 : field_decoders "priority".data = some intDecode := rfl
    have h6 : field_decoders "n_bytes".data = some intDecode := rfl
    have h7 : field_decoders "n_packets".data = some intDecode := rfl
    exact ⟨by simp [decode_field, h1, intDecode, hn, Except.map],
      by simp [decode_field, h2, intDecode, hn, Except.map],
      by simp [decode_field, h3, intDecode, hn, Except.map],
      by simp [decode_field, h4, intDecode, hn, Except.map],
      by simp [decode_field, h5, intDecode, hn, Except.map],
      by simp [decode_field, h6, intDecode, hn, Except.map],
      by simp [decode_field, h7, intDecode, hn, Except.map]⟩
  · intro v
    have hf : field_decoders "in_port".data =
        some (fun v => .ok (decode_port v)) := rfl
    simp [decode_field, hf, Except.map]
  · intro k v hk
    simp only [decoderKeys, List.mem_cons, List.not_mem_nil, or_false,
      not_or] at hk
    obtain ⟨n1, n2, n3, n4, n5, n6, n7, n8, n9⟩ := hk
    simp [decode_field, field_decoders, n1, n2, n3, n4, n5, n6, n7, n8, n9]

/-- Witness for C9: `8.528s` becomes the float 8.528 under `duration`,
`0` becomes the int 0 under `table`, `in_port` routes through
`decode_port`, and the undeclared field `cookie` stays a string. -/
theorem field_decoding_per_name_witness :
    decode_field ("duration".data, "8.528s".data) =
      .ok ("duration".data, FieldValue.float (mkRat 8528 1000)) ∧
    decode_field ("table".data, "0".data) =
      .ok ("table".data, FieldValue.int 0) ∧
    decode_field ("in_port".data, "5".data) =
      .ok ("in_port".data, decode_port "5".data) ∧
    decode_field ("cookie".data, "0x0".data) =
      .ok ("cookie".data, FieldValue.str "0x0".data) :=
  ⟨field_decoding_per_name.1 _ _ (by decide),
   (field_decoding_per_name.2.1 _ 0 (by decide)).1,
   field_decoding_per_name.2.2.1 _,
   field_decoding_per_name.2.2.2 _ _ (by decide)⟩

/-- C10: `_decode_port` is total — it returns the integer value whenever
`int(port)` succeeds, and otherwise returns the same string with every
double-quote character removed. -/
theorem decode_port_total (s : Chars) :
    (∀ n : Int, pyIntList s = some n → decode_port s = FieldValue.int n) ∧
    (pyIntList s = none →
      decode_port s = FieldValue.str (s.filter fun c => c != dquote)) := by
  constructor
  · intro n hn
    simp [decode_port, hn]
  · intro hn
    simp [decode_port, hn]

/-- Witness for C10: a numeric port becomes an int; a quoted interface
name loses its double quotes and stays a string. -/
theorem decode_port_total_witness :
    decode_port "123".data = FieldValue.int 123 ∧
    decode_port "\"s1-eth2\"".data = FieldValue.str "s1-eth2".data := by
  refine ⟨(decode_port_total _).1 123 (by decide), ?_⟩
  rw [(decode_port_total _).2 (by decide)]
  decide

end OVSofctlDumpFlows
